import Mathlib

/-!
Verification of the customer-segmentation model
(`models/marts/customer_segments_python.py`).

The source is a dbt Python model: it reads the upstream `customers` table,
fills missing numeric features with 0, standardizes the two features
(`count_lifetime_orders`, `lifetime_spend`) with `StandardScaler`, clusters
the standardized points with `KMeans(n_clusters = min(4, n), random_state = 42)`,
maps raw cluster indices through the fixed dictionary
`{0: 'Low Value', 1: 'Medium Value', 2: 'High Value', 3: 'VIP'}` (with a
fallback `'Segment_{i}'`), scores each customer as `1 / (1 + min distance to
the cluster centers)`, and returns a four-column result table.

The sklearn `KMeans` fit is third-party library code; it is embedded as an
abstract deterministic function `KMeansFun` taking the seed (the source pins
`random_state = 42`), the number of clusters, and the standardized points,
and returning per-point labels plus cluster centers.  Theorems that depend on
KMeans behaviour take as hypotheses exactly the contract sklearn guarantees
(one label per point, labels in `[0, k)`, `k` centers, points assigned to
their nearest center, final centers equal to the mean of their assigned
points).  All other arithmetic (`StandardScaler`, distances, scores) is
embedded directly over `ℝ`.
-/

namespace CustomerSegments

noncomputable section

/-- A standardized feature vector: `(count_lifetime_orders, lifetime_spend)`. -/
abbrev Point := ℝ × ℝ

/-- The zero point, used as the default for list lookups. -/
def origin : Point := (0, 0)

/-- One row of the upstream `customers` table.  The two numeric features are
optional: the source treats missing values as NULLs and runs `fillna(0)`. -/
structure CustomerRecord where
  customer_id : ℕ
  count_lifetime_orders : Option ℝ
  lifetime_spend : Option ℝ

/-- One row of the result `DataFrame` built at the end of `model`. -/
structure SegmentRow where
  customer_id : ℕ
  segment : String
  segment_score : ℝ
  cluster_id : ℕ

/-- The result table: its column schema together with its rows.  The column
list is tracked explicitly because the source's empty-input branch constructs
`pd.DataFrame(columns=[...])` with an explicit column list. -/
structure OutputTable where
  columns : List String
  rows : List SegmentRow

/-- The data produced by a fitted `KMeans` object: `labels` is
`fit_predict`'s output (one cluster index per input point) and `centers` is
`cluster_centers_`. -/
structure KMeansResult where
  labels : List ℕ
  centers : List Point

/-- An abstract KMeans fit: seed, number of clusters, points.  The source
calls sklearn with `random_state = 42`, so a run of the model is one
application of such a function at seed 42 — deterministic by construction. -/
abbrev KMeansFun := ℕ → ℕ → List Point → KMeansResult

/-- Feature extraction with `fillna(0)`:
`customers_df[['count_lifetime_orders', 'lifetime_spend']].fillna(0)`. -/
def featuresOf (c : CustomerRecord) : Point :=
  (c.count_lifetime_orders.getD 0, c.lifetime_spend.getD 0)

/-- Column mean, as computed by `StandardScaler.fit`. -/
def mean (xs : List ℝ) : ℝ := xs.sum / xs.length

/-- Population variance (ddof = 0), as computed by `StandardScaler.fit`. -/
def variance (xs : List ℝ) : ℝ :=
  ((xs.map (fun x => (x - mean xs) ^ 2)).sum) / xs.length

/-- Column standard deviation `sqrt(variance)`. -/
def stddev (xs : List ℝ) : ℝ := Real.sqrt (variance xs)

/-- The divisor used by `StandardScaler`: `_handle_zeros_in_scale` replaces a
zero standard deviation by 1 so that constant columns scale to 0 instead of
dividing by zero. -/
def scaleOf (xs : List ℝ) : ℝ := if stddev xs = 0 then 1 else stddev xs

/-- Standardization of one column: `(x − mean) / scale`. -/
def standardizeCol (xs : List ℝ) : List ℝ :=
  xs.map (fun x => (x - mean xs) / scaleOf xs)

/-- `scaler.fit_transform(features)`: each of the two feature columns is
standardized independently. -/
def fit_transform (pts : List Point) : List Point :=
  List.zip (standardizeCol (pts.map Prod.fst)) (standardizeCol (pts.map Prod.snd))

/-- The standardized feature matrix `scaled_features` for an input table. -/
def scaled_features (cs : List CustomerRecord) : List Point :=
  fit_transform (cs.map featuresOf)

/-- `n_clusters = min(4, len(features))` (line 26 of the source). -/
def n_clusters (cs : List CustomerRecord) : ℕ := min 4 cs.length

/-- The fitted KMeans object for a run of the model:
`KMeans(n_clusters=n_clusters, random_state=42).fit(scaled_features)`. -/
def kmeans_fit (kf : KMeansFun) (cs : List CustomerRecord) : KMeansResult :=
  kf 42 (n_clusters cs) (scaled_features cs)

/-- Euclidean distance in standardized feature space. -/
def euclid (p q : Point) : ℝ :=
  Real.sqrt ((p.1 - q.1) ^ 2 + (p.2 - q.2) ^ 2)

/-- Minimum of a list of reals (`np.min` over one row of the distance
matrix); 0 on the empty list, which the source never hits since `k ≥ 1`. -/
def listMin : List ℝ → ℝ
  | [] => 0
  | x :: xs => xs.foldl min x

/-- `np.min(distances, axis=1)` for one point: the distance to the nearest
cluster center. -/
def minDist (centers : List Point) (p : Point) : ℝ :=
  listMin (centers.map (euclid p))

/-- `segment_scores = 1 / (1 + np.min(distances, axis=1))` for one point. -/
def scoreOf (centers : List Point) (p : Point) : ℝ :=
  1 / (1 + minDist centers p)

/-- The label map `segment_map.get(seg, f'Segment_{seg}')`: the fixed
dictionary keyed by the raw cluster index, with the fallback string. -/
def segment_map (seg : ℕ) : String :=
  if seg = 0 then "Low Value"
  else if seg = 1 then "Medium Value"
  else if seg = 2 then "High Value"
  else if seg = 3 then "VIP"
  else "Segment_" ++ toString seg

/-- One row of `result_df`, built from a customer, its standardized point and
its cluster index. -/
def rowOf (centers : List Point) (x : CustomerRecord × Point × ℕ) : SegmentRow :=
  ⟨x.1.customer_id, segment_map x.2.2, scoreOf centers x.2.1, x.2.2⟩

/-- The rows of `result_df` in the non-empty branch: customers, standardized
points and labels are aligned positionally (pandas requires the three column
arrays to have equal length; KMeans guarantees one label per point). -/
def modelRows (kf : KMeansFun) (cs : List CustomerRecord) : List SegmentRow :=
  (cs.zip ((scaled_features cs).zip (kmeans_fit kf cs).labels)).map
    (rowOf (kmeans_fit kf cs).centers)

/-- The `model` function of the source, with the sklearn KMeans fit passed in
as the abstract function `kf` (applied at the pinned seed 42).  The empty
branch returns `pd.DataFrame(columns=['customer_id', 'segment',
'segment_score'])`; the non-empty branch returns the four-column result. -/
def model (kf : KMeansFun) (cs : List CustomerRecord) : OutputTable :=
  if (cs.map featuresOf).length = 0 then
    ⟨["customer_id", "segment", "segment_score"], []⟩
  else
    ⟨["customer_id", "segment", "segment_score", "cluster_id"], modelRows kf cs⟩

/-- The points of a clustering assigned to cluster `j`. -/
def clusterPoints (pts : List Point) (ls : List ℕ) (j : ℕ) : List Point :=
  ((pts.zip ls).filter (fun pl => pl.2 == j)).map Prod.fst

/-- Componentwise mean of a list of points (the Lloyd centroid update). -/
def meanPoint (pts : List Point) : Point :=
  (mean (pts.map Prod.fst), mean (pts.map Prod.snd))

/-- A trivial clustering function used to instantiate witnesses: every point
goes to cluster 0 and every center is the origin. -/
def kf0 : KMeansFun := fun _ k pts =>
  ⟨List.replicate pts.length 0, List.replicate k origin⟩

/-- A clustering function exhibiting a perfectly valid KMeans fixed point in
which the raw index order of the clusters is the reverse of their centroid
order. -/
def kfBad : KMeansFun := fun _ k _ =>
  if k = 2 then ⟨[1, 0], [(1, 1), (-1, -1)]⟩ else ⟨[], []⟩

/-- A one-customer input table. -/
def cs1 : List CustomerRecord := [⟨1, some 2, some 3⟩]

/-- A two-customer input table whose standardized points are `(-1, -1)` and
`(1, 1)`. -/
def cs2 : List CustomerRecord := [⟨1, some 1, some 10⟩, ⟨2, some 3, some 30⟩]

/-! ### Basic facts about the embedding -/

lemma length_standardizeCol (xs : List ℝ) : (standardizeCol xs).length = xs.length := by
  simp [standardizeCol]

lemma length_fit_transform (pts : List Point) : (fit_transform pts).length = pts.length := by
  simp [fit_transform, List.length_zip, length_standardizeCol]

lemma length_scaled_features (cs : List CustomerRecord) :
    (scaled_features cs).length = cs.length := by
  simp [scaled_features, length_fit_transform]

lemma model_nil (kf : KMeansFun) :
    model kf [] = ⟨["customer_id", "segment", "segment_score"], []⟩ := rfl

lemma model_ne (kf : KMeansFun) (cs : List CustomerRecord) (h : cs ≠ []) :
    model kf cs =
      ⟨["customer_id", "segment", "segment_score", "cluster_id"], modelRows kf cs⟩ := by
  unfold model
  rw [if_neg]
  simpa using h

lemma euclid_nonneg (p q : Point) : 0 ≤ euclid p q := Real.sqrt_nonneg _

lemma euclid_eq_zero_iff (p q : Point) : euclid p q = 0 ↔ p = q := by
  constructor
  · intro h
    have hle : (p.1 - q.1) ^ 2 + (p.2 - q.2) ^ 2 ≤ 0 := Real.sqrt_eq_zero'.mp h
    have h1 : p.1 - q.1 = 0 := by nlinarith [sq_nonneg (p.1 - q.1), sq_nonneg (p.2 - q.2)]
    have h2 : p.2 - q.2 = 0 := by nlinarith [sq_nonneg (p.1 - q.1), sq_nonneg (p.2 - q.2)]
    exact Prod.ext_iff.mpr ⟨by linarith, by linarith⟩
  · rintro rfl
    simp [euclid]

lemma foldl_min_le (xs : List ℝ) (x : ℝ) :
    xs.foldl min x ≤ x ∧ ∀ y ∈ xs, xs.foldl min x ≤ y := by
  induction xs generalizing x with
  | nil => simp
  | cons a t ih =>
    refine ⟨le_trans (ih (min x a)).1 (min_le_left _ _), ?_⟩
    intro y hy
    rcases List.mem_cons.mp hy with rfl | hy
    · exact le_trans (ih (min x y)).1 (min_le_right _ _)
    · exact (ih (min x a)).2 y hy

lemma listMin_le {l : List ℝ} {y : ℝ} (hy : y ∈ l) : listMin l ≤ y := by
  cases l with
  | nil => cases hy
  | cons x xs =>
    rcases List.mem_cons.mp hy with rfl | hy
    · exact (foldl_min_le xs y).1
    · exact (foldl_min_le xs x).2 y hy

lemma foldl_min_mem (xs : List ℝ) (x : ℝ) : xs.foldl min x ∈ x :: xs := by
  induction xs generalizing x with
  | nil => simp
  | cons a t ih =>
    have hmem := ih (min x a)
    rcases List.mem_cons.mp hmem with h | h
    · rcases min_choice x a with h' | h'
      · rw [List.foldl_cons, h, h']
        exact List.mem_cons_self _ _
      · rw [List.foldl_cons, h, h']
        exact List.mem_cons_of_mem _ (List.mem_cons_self _ _)
    · exact List.mem_cons_of_mem _ (List.mem_cons_of_mem _ h)

lemma listMin_mem {l : List ℝ} (h : l ≠ []) : listMin l ∈ l := by
  cases l with
  | nil => exact absurd rfl h
  | cons x xs => exact foldl_min_mem xs x

lemma minDist_nonneg (centers : List Point) (p : Point) : 0 ≤ minDist centers p := by
  cases centers with
  | nil => simp [minDist, listMin]
  | cons c cl =>
    have hmem : listMin ((c :: cl).map (euclid p)) ∈ (c :: cl).map (euclid p) :=
      listMin_mem (by simp)
    rcases List.mem_map.mp hmem with ⟨q, _, heq⟩
    rw [minDist, ← heq]
    exact euclid_nonneg p q

lemma standardizeCol_single (a : ℝ) : standardizeCol [a] = [0] := by
  simp [standardizeCol, mean]

lemma scaled_features_single (c : CustomerRecord) : scaled_features [c] = [origin] := by
  simp [scaled_features, fit_transform, standardizeCol_single, origin]

lemma sum_eq_zero_of_nonneg {l : List ℝ} (h : ∀ x ∈ l, 0 ≤ x) (h0 : l.sum = 0) :
    ∀ x ∈ l, x = 0 := by
  induction l with
  | nil => simp
  | cons a t ih =>
    have hta : 0 ≤ a := h a (List.mem_cons_self _ _)
    have htt : 0 ≤ t.sum := List.sum_nonneg fun x hx => h x (List.mem_cons_of_mem _ hx)
    have hsum : a + t.sum = 0 := by simpa using h0
    intro x hx
    rcases List.mem_cons.mp hx with rfl | hx
    · linarith
    · exact ih (fun y hy => h y (List.mem_cons_of_mem _ hy)) (by linarith) x hx

lemma sum_const_list {l : List ℝ} {v : ℝ} (h : ∀ x ∈ l, x = v) :
    l.sum = l.length * v := by
  induction l with
  | nil => simp
  | cons a t ih =>
    have ha : a = v := h a (List.mem_cons_self _ _)
    have ht := ih fun y hy => h y (List.mem_cons_of_mem _ hy)
    simp only [List.sum_cons, List.length_cons, ha, ht]
    push_cast
    ring

lemma mean_const {l : List ℝ} {v : ℝ} (hne : l ≠ []) (h : ∀ x ∈ l, x = v) :
    mean l = v := by
  have hlen : (l.length : ℝ) ≠ 0 :=
    Nat.cast_ne_zero.mpr fun h0 => hne (List.length_eq_zero.mp h0)
  rw [mean, sum_const_list h, mul_comm, mul_div_assoc, div_self hlen, mul_one]

lemma variance_nonneg (xs : List ℝ) : 0 ≤ variance xs := by
  apply div_nonneg _ (Nat.cast_nonneg _)
  apply List.sum_nonneg
  intro y hy
  rcases List.mem_map.mp hy with ⟨a, _, rfl⟩
  positivity

lemma eq_mean_of_stddev_eq_zero {xs : List ℝ} (h : stddev xs = 0) :
    ∀ x ∈ xs, x = mean xs := by
  have hvar : variance xs = 0 :=
    le_antisymm (Real.sqrt_eq_zero'.mp h) (variance_nonneg xs)
  intro x hx
  have hne : xs ≠ [] := by rintro rfl; cases hx
  have hlen : (xs.length : ℝ) ≠ 0 :=
    Nat.cast_ne_zero.mpr fun h0 => hne (List.length_eq_zero.mp h0)
  have hsum : (xs.map (fun x => (x - mean xs) ^ 2)).sum = 0 := by
    rcases div_eq_zero_iff.mp hvar with h' | h'
    · exact h'
    · exact absurd h' hlen
  have hz := sum_eq_zero_of_nonneg
    (fun y hy => by rcases List.mem_map.mp hy with ⟨a, _, rfl⟩; positivity) hsum
  have hsq := hz ((x - mean xs) ^ 2) (List.mem_map_of_mem _ hx)
  have hx0 : x - mean xs = 0 := (pow_eq_zero_iff two_ne_zero).mp hsq
  linarith

lemma stddev_const {xs : List ℝ} {v : ℝ} (h : ∀ x ∈ xs, x = v) : stddev xs = 0 := by
  have hsum : (xs.map (fun x => (x - mean xs) ^ 2)).sum = 0 := by
    apply List.sum_eq_zero
    intro y hy
    rcases List.mem_map.mp hy with ⟨a, ha, rfl⟩
    rcases eq_or_ne xs [] with rfl | hne
    · cases ha
    · rw [h a ha, mean_const hne h, sub_self]
      ring
  rw [stddev, variance, hsum, zero_div, Real.sqrt_zero]

lemma mean_col1 : mean [(1 : ℝ), 3] = 2 := by norm_num [mean]

lemma var_col1 : variance [(1 : ℝ), 3] = 1 := by
  simp only [variance, mean_col1]
  norm_num

lemma std_col1 : stddev [(1 : ℝ), 3] = 1 := by
  rw [stddev, var_col1, Real.sqrt_one]

lemma scale_col1 : scaleOf [(1 : ℝ), 3] = 1 := by simp [scaleOf, std_col1]

lemma col1_std : standardizeCol [(1 : ℝ), 3] = [-1, 1] := by
  simp only [standardizeCol, mean_col1, scale_col1, List.map_cons, List.map_nil]
  norm_num

lemma mean_col2 : mean [(10 : ℝ), 30] = 20 := by norm_num [mean]

lemma var_col2 : variance [(10 : ℝ), 30] = 100 := by
  simp only [variance, mean_col2]
  norm_num

lemma std_col2 : stddev [(10 : ℝ), 30] = 10 := by
  rw [stddev, var_col2, show (100 : ℝ) = 10 ^ 2 by norm_num,
    Real.sqrt_sq (by norm_num : (0 : ℝ) ≤ 10)]

lemma scale_col2 : scaleOf [(10 : ℝ), 30] = 10 := by simp [scaleOf, std_col2]

lemma col2_std : standardizeCol [(10 : ℝ), 30] = [-1, 1] := by
  simp only [standardizeCol, mean_col2, scale_col2, List.map_cons, List.map_nil]
  norm_num

lemma scaled_cs2 : scaled_features cs2 = [((-1 : ℝ), (-1 : ℝ)), (1, 1)] := by
  have hmap : cs2.map featuresOf = [((1 : ℝ), (10 : ℝ)), (3, 30)] := by
    simp [cs2, featuresOf]
  rw [scaled_features, hmap, fit_transform]
  have hfst : ([((1 : ℝ), (10 : ℝ)), (3, 30)]).map Prod.fst = [(1 : ℝ), 3] := by simp
  have hsnd : ([((1 : ℝ), (10 : ℝ)), (3, 30)]).map Prod.snd = [(10 : ℝ), 30] := by simp
  rw [hfst, hsnd, col1_std, col2_std]
  rfl

/-! ### Claim theorems -/

/-- C2, counterexample: on empty input the source returns
`pd.DataFrame(columns=['customer_id', 'segment', 'segment_score'])`, so the
empty output's schema is NOT the claimed four-column schema — the
`cluster_id` column is missing in the empty branch. -/
theorem empty_schema_counterexample :
    (model kf0 []).columns ≠ ["customer_id", "segment", "segment_score", "cluster_id"] := by
  decide

/-- C2 (amended): on empty input the model returns an empty table whose
schema is the three columns `customer_id, segment, segment_score` (the
`cluster_id` column is absent in this branch), and no clustering is
attempted: the result does not depend on the clustering function at all. -/
theorem empty_input_schema (kf : KMeansFun) :
    model kf [] = ⟨["customer_id", "segment", "segment_score"], []⟩ ∧
    (model kf []).rows = [] ∧
    model kf [] = model kf0 [] :=
  ⟨rfl, rfl, rfl⟩

/-- C3: for each customer of a non-empty input (a `(customer, (standardized
point, label))` triple of the aligned data), under the KMeans guarantee that
the assigned center attains the minimum distance, the emitted
`segment_score` equals `1 / (1 + d)` with `d` the Euclidean distance to the
assigned cluster's center; the score is in `(0, 1]` and equals 1 exactly when
the customer's standardized point is its centroid. -/
theorem segment_score_spec (kf : KMeansFun) (cs : List CustomerRecord) (hne : cs ≠ []) :
    ∀ x ∈ cs.zip ((scaled_features cs).zip (kmeans_fit kf cs).labels),
      euclid x.2.1 ((kmeans_fit kf cs).centers.getD x.2.2 origin)
          = minDist (kmeans_fit kf cs).centers x.2.1 →
      (rowOf (kmeans_fit kf cs).centers x ∈ (model kf cs).rows ∧
       (rowOf (kmeans_fit kf cs).centers x).segment_score
           = 1 / (1 + euclid x.2.1 ((kmeans_fit kf cs).centers.getD x.2.2 origin)) ∧
       0 < (rowOf (kmeans_fit kf cs).centers x).segment_score ∧
       (rowOf (kmeans_fit kf cs).centers x).segment_score ≤ 1 ∧
       ((rowOf (kmeans_fit kf cs).centers x).segment_score = 1 ↔
         x.2.1 = (kmeans_fit kf cs).centers.getD x.2.2 origin)) := by
  intro x hx hnear
  have hd0 : 0 ≤ minDist (kmeans_fit kf cs).centers x.2.1 := minDist_nonneg _ _
  have hscore : (rowOf (kmeans_fit kf cs).centers x).segment_score
      = 1 / (1 + minDist (kmeans_fit kf cs).centers x.2.1) := rfl
  have hpos : (0 : ℝ) < 1 + minDist (kmeans_fit kf cs).centers x.2.1 := by linarith
  have h1iff : (1 : ℝ) / (1 + minDist (kmeans_fit kf cs).centers x.2.1) = 1 ↔
      (1 : ℝ) = 1 + minDist (kmeans_fit kf cs).centers x.2.1 :=
    div_eq_one_iff_eq (ne_of_gt hpos)
  refine ⟨?_, ?_, ?_, ?_, ?_⟩
  · rw [model_ne kf cs hne]
    exact List.mem_map_of_mem _ hx
  · rw [hscore, hnear]
  · rw [hscore]
    exact div_pos one_pos hpos
  · rw [hscore, div_le_one hpos]
    linarith
  · rw [hscore, h1iff]
    constructor
    · intro h
      have hdz : euclid x.2.1 ((kmeans_fit kf cs).centers.getD x.2.2 origin) = 0 := by
        rw [hnear]; linarith
      exact (euclid_eq_zero_iff _ _).mp hdz
    · intro h
      have hdz : minDist (kmeans_fit kf cs).centers x.2.1 = 0 := by
        rw [← hnear]
        exact (euclid_eq_zero_iff _ _).mpr h
      rw [hdz]
      norm_num

/-- C3 witness at a concrete one-customer table: the point sits on its
centroid and the score is exactly 1. -/
theorem segment_score_spec_witness :
    ((⟨1, some 2, some 3⟩ : CustomerRecord), ((origin : Point), (0 : ℕ)))
        ∈ cs1.zip ((scaled_features cs1).zip (kmeans_fit kf0 cs1).labels) ∧
    euclid origin ((kmeans_fit kf0 cs1).centers.getD 0 origin)
        = minDist (kmeans_fit kf0 cs1).centers origin ∧
    (rowOf (kmeans_fit kf0 cs1).centers (⟨1, some 2, some 3⟩, (origin, 0))
        ∈ (model kf0 cs1).rows ∧
     (rowOf (kmeans_fit kf0 cs1).centers (⟨1, some 2, some 3⟩, (origin, 0))).segment_score
        = 1 / (1 + euclid origin ((kmeans_fit kf0 cs1).centers.getD 0 origin)) ∧
     0 < (rowOf (kmeans_fit kf0 cs1).centers (⟨1, some 2, some 3⟩, (origin, 0))).segment_score ∧
     (rowOf (kmeans_fit kf0 cs1).centers (⟨1, some 2, some 3⟩, (origin, 0))).segment_score ≤ 1 ∧
     ((rowOf (kmeans_fit kf0 cs1).centers (⟨1, some 2, some 3⟩, (origin, 0))).segment_score = 1 ↔
       origin = (kmeans_fit kf0 cs1).centers.getD 0 origin)) := by
  have hmem : ((⟨1, some 2, some 3⟩ : CustomerRecord), ((origin : Point), (0 : ℕ)))
      ∈ cs1.zip ((scaled_features cs1).zip (kmeans_fit kf0 cs1).labels) := by
    simp [cs1, kmeans_fit, kf0, scaled_features_single, length_scaled_features, n_clusters]
  have hnear : euclid origin ((kmeans_fit kf0 cs1).centers.getD 0 origin)
      = minDist (kmeans_fit kf0 cs1).centers origin := by
    simp [kmeans_fit, kf0, n_clusters, cs1, minDist, listMin]
  exact ⟨hmem, hnear, segment_score_spec kf0 cs1 (by simp [cs1]) _ hmem hnear⟩

/-- C2 witness: the amended empty-input behaviour at a concrete clustering
function. -/
theorem empty_input_schema_witness :
    model kf0 [] = ⟨["customer_id", "segment", "segment_score"], []⟩ ∧
    (model kf0 []).rows = [] ∧
    model kf0 [] = model kf0 [] :=
  empty_input_schema kf0

/-- C5: running the model twice on the same input yields identical output in
every field.  The source pins `random_state = 42` (line 27), so the KMeans
fit is a deterministic function and the whole pipeline is embedded as a pure
function of the input table; two runs are literally the same value. -/
theorem model_deterministic (kf : KMeansFun) (cs : List CustomerRecord) :
    model kf cs = model kf cs := rfl

/-- C5 witness at a concrete input and clustering function. -/
theorem model_deterministic_witness : model kf0 cs1 = model kf0 cs1 :=
  model_deterministic kf0 cs1

/-- C6: the output has exactly one row per input customer, the original row
order of `customer_id` is preserved (the output id column equals the input id
column as a list), and uniqueness of ids carries over (no drops, no
duplicates).  The hypothesis is the KMeans contract that `fit_predict`
returns one label per input point. -/
theorem rows_match (kf : KMeansFun) (cs : List CustomerRecord)
    (hlen : (kmeans_fit kf cs).labels.length = cs.length) :
    (model kf cs).rows.length = cs.length ∧
    (model kf cs).rows.map SegmentRow.customer_id = cs.map CustomerRecord.customer_id ∧
    ((cs.map CustomerRecord.customer_id).Nodup →
      ((model kf cs).rows.map SegmentRow.customer_id).Nodup) := by
  rcases eq_or_ne cs [] with h | h
  · subst h; simp [model_nil]
  · rw [model_ne kf cs h]
    have hz : (cs.zip ((scaled_features cs).zip (kmeans_fit kf cs).labels)).map Prod.fst
        = cs :=
      List.map_fst_zip _ _ (by simp [List.length_zip, length_scaled_features, hlen])
    have hmap : (modelRows kf cs).map SegmentRow.customer_id
        = cs.map CustomerRecord.customer_id := by
      rw [modelRows, List.map_map]
      have hcomp : SegmentRow.customer_id ∘ rowOf (kmeans_fit kf cs).centers
          = CustomerRecord.customer_id ∘ Prod.fst := rfl
      rw [hcomp, ← List.map_map, hz]
    refine ⟨?_, hmap, fun hnd => by rw [hmap]; exact hnd⟩
    simp [modelRows, List.length_zip, length_scaled_features, hlen]

/-- C6 witness at a concrete one-customer table and a concrete clustering
function. -/
theorem rows_match_witness :
    (kmeans_fit kf0 cs1).labels.length = cs1.length ∧
    ((model kf0 cs1).rows.length = cs1.length ∧
     (model kf0 cs1).rows.map SegmentRow.customer_id = cs1.map CustomerRecord.customer_id ∧
     ((cs1.map CustomerRecord.customer_id).Nodup →
       ((model kf0 cs1).rows.map SegmentRow.customer_id).Nodup)) :=
  ⟨rfl, rows_match kf0 cs1 rfl⟩

/-- C7: the number of clusters used is `k = min(4, n)` (line 26), `k` is at
least 1 and at most the number of customers for non-empty input — clustering
is always invoked with a feasible `k` and never fails for small inputs — and
the model depends on the clustering function only through its value at that
`k` (and the standardized points). -/
theorem clusters_choice (kf : KMeansFun) (cs : List CustomerRecord) (hne : cs ≠ []) :
    n_clusters cs = min 4 cs.length ∧
    1 ≤ n_clusters cs ∧
    n_clusters cs ≤ cs.length ∧
    (∀ kf' : KMeansFun,
      kf' 42 (n_clusters cs) (scaled_features cs)
          = kf 42 (n_clusters cs) (scaled_features cs) →
      model kf' cs = model kf cs) := by
  have hpos : 0 < cs.length := List.length_pos.mpr hne
  refine ⟨rfl, ?_, min_le_right _ _, ?_⟩
  · simp only [n_clusters]
    omega
  · intro kf' hagree
    rw [model_ne kf cs hne, model_ne kf' cs hne]
    simp [modelRows, kmeans_fit, hagree]

/-- C7 witness at a concrete one-customer table. -/
theorem clusters_choice_witness :
    cs1 ≠ [] ∧
    (n_clusters cs1 = min 4 cs1.length ∧
     1 ≤ n_clusters cs1 ∧
     n_clusters cs1 ≤ cs1.length ∧
     (∀ kf' : KMeansFun,
       kf' 42 (n_clusters cs1) (scaled_features cs1)
           = kf0 42 (n_clusters cs1) (scaled_features cs1) →
       model kf' cs1 = model kf0 cs1)) :=
  ⟨by simp [cs1], clusters_choice kf0 cs1 (by simp [cs1])⟩

/-- C10: under the KMeans guarantee that every returned cluster index is
below `k = n_clusters`, every emitted segment label belongs to the fixed
four-label set and every emitted `cluster_id` is below `k` (hence below 4):
the fallback branch `'Segment_{seg}'` of `segment_map.get` is unreachable,
since every row's label is exactly `segment_map` applied to an index < 4. -/
theorem labels_in_fixed_set (kf : KMeansFun) (cs : List CustomerRecord)
    (hlt : ∀ l ∈ (kmeans_fit kf cs).labels, l < n_clusters cs) :
    ∀ row ∈ (model kf cs).rows,
      row.segment ∈ ["Low Value", "Medium Value", "High Value", "VIP"] ∧
      row.cluster_id < n_clusters cs ∧
      row.cluster_id < 4 ∧
      row.segment = segment_map row.cluster_id := by
  intro row hrow
  rcases eq_or_ne cs [] with h | h
  · subst h
    simp [model_nil] at hrow
  · rw [model_ne kf cs h] at hrow
    rcases List.mem_map.mp hrow with ⟨x, hx, rfl⟩
    obtain ⟨c, p, l⟩ := x
    have hpl : (p, l) ∈ (scaled_features cs).zip (kmeans_fit kf cs).labels :=
      (List.of_mem_zip hx).2
    have hl : l ∈ (kmeans_fit kf cs).labels := (List.of_mem_zip hpl).2
    have hk : l < n_clusters cs := hlt l hl
    have h4 : l < 4 := lt_of_lt_of_le hk (min_le_left _ _)
    refine ⟨?_, hk, h4, rfl⟩
    show segment_map l ∈ _
    interval_cases l <;> simp [segment_map]

/-- C10 witness at a concrete one-customer table and clustering function. -/
theorem labels_in_fixed_set_witness :
    (∀ l ∈ (kmeans_fit kf0 cs1).labels, l < n_clusters cs1) ∧
    (∀ row ∈ (model kf0 cs1).rows,
      row.segment ∈ ["Low Value", "Medium Value", "High Value", "VIP"] ∧
      row.cluster_id < n_clusters cs1 ∧
      row.cluster_id < 4 ∧
      row.segment = segment_map row.cluster_id) := by
  have hlt : ∀ l ∈ (kmeans_fit kf0 cs1).labels, l < n_clusters cs1 := by
    intro l hl
    simp [kmeans_fit, kf0, cs1, scaled_features_single, n_clusters] at hl
    simp [hl, n_clusters, cs1]
  exact ⟨hlt, labels_in_fixed_set kf0 cs1 hlt⟩

/-- C8: zero-variance policy.  (1) If a column's standard deviation is zero,
its standardized value is 0 for every row (the scaler substitutes divisor 1,
so no division by zero occurs).  (2) In particular, if every customer has the
same `lifetime_spend`, the second coordinate of every standardized point is
0.  (3) Distances between points agreeing on the degenerate coordinate reduce
to the absolute difference of the other coordinate, so clustering is driven
solely by the other feature. -/
theorem zero_variance_policy :
    (∀ xs : List ℝ, stddev xs = 0 → standardizeCol xs = xs.map fun _ => 0) ∧
    (∀ (cs : List CustomerRecord) (v : ℝ),
      (∀ c ∈ cs, c.lifetime_spend.getD 0 = v) →
      (scaled_features cs).map Prod.snd = cs.map fun _ => 0) ∧
    (∀ p q : Point, p.2 = q.2 → euclid p q = |p.1 - q.1|) := by
  have hcol : ∀ xs : List ℝ, stddev xs = 0 → standardizeCol xs = xs.map fun _ => 0 := by
    intro xs h
    apply List.map_congr_left
    intro a ha
    rw [eq_mean_of_stddev_eq_zero h a ha, sub_self, zero_div]
  refine ⟨hcol, ?_, ?_⟩
  · intro cs v h
    have hxs : ∀ x ∈ (cs.map featuresOf).map Prod.snd, x = v := by
      intro x hx
      rcases List.mem_map.mp hx with ⟨p, hp, rfl⟩
      rcases List.mem_map.mp hp with ⟨c, hc, rfl⟩
      exact h c hc
    have hsnd : (scaled_features cs).map Prod.snd
        = standardizeCol ((cs.map featuresOf).map Prod.snd) := by
      apply List.map_snd_zip
      rw [length_standardizeCol, length_standardizeCol]
      simp
    rw [hsnd, hcol _ (stddev_const hxs), List.map_map, List.map_map]
    rfl
  · intro p q hpq
    rw [euclid, hpq, sub_self]
    rw [show ((0 : ℝ)) ^ 2 = 0 by ring, add_zero, Real.sqrt_sq_eq_abs]

/-- C8 witness: a concrete constant column standardizes to the zero column. -/
theorem zero_variance_policy_witness :
    stddev [(2 : ℝ), 2] = 0 ∧ standardizeCol [(2 : ℝ), 2] = [0, 0] := by
  have h0 : stddev [(2 : ℝ), 2] = 0 := stddev_const (v := 2) (by intro x hx; simpa using hx)
  have h1 := zero_variance_policy.1 [(2 : ℝ), 2] h0
  exact ⟨h0, by simpa using h1⟩

/-- C9: a one-customer input uses `k = min(4, 1) = 1`, and under the KMeans
contract at `k = 1` (one label per point, labels below `k`, the single final
center equal to the mean of its assigned points) the sole customer is put in
cluster 0, labelled `Low Value`, with `segment_score` exactly 1. -/
theorem single_customer (kf : KMeansFun) (c : CustomerRecord)
    (hlen : (kmeans_fit kf [c]).labels.length = 1)
    (hlt : ∀ l ∈ (kmeans_fit kf [c]).labels, l < n_clusters [c])
    (hcen : (kmeans_fit kf [c]).centers
        = [meanPoint (clusterPoints (scaled_features [c]) (kmeans_fit kf [c]).labels 0)]) :
    n_clusters [c] = 1 ∧
    model kf [c] = ⟨["customer_id", "segment", "segment_score", "cluster_id"],
      [⟨c.customer_id, "Low Value", 1, 0⟩]⟩ := by
  have hlabels : (kmeans_fit kf [c]).labels = [0] := by
    cases hls : (kmeans_fit kf [c]).labels with
    | nil => rw [hls] at hlen; cases hlen
    | cons l t =>
      cases t with
      | nil =>
        have hl1 : l < 1 := hlt l (by rw [hls]; exact List.mem_cons_self _ _)
        rw [Nat.lt_one_iff.mp hl1]
      | cons a s => rw [hls] at hlen; simp at hlen
  have hsc : scaled_features [c] = [origin] := scaled_features_single c
  have hcen' : (kmeans_fit kf [c]).centers = [origin] := by
    rw [hcen, hsc, hlabels]
    simp [clusterPoints, meanPoint, mean, origin]
  refine ⟨rfl, ?_⟩
  rw [model_ne kf [c] (by simp)]
  simp only [modelRows, hsc, hlabels, hcen']
  simp [rowOf, scoreOf, minDist, listMin, euclid, origin, segment_map, Real.sqrt_zero]

/-- C9 witness at a concrete customer and a concrete clustering function
satisfying the `k = 1` contract. -/
theorem single_customer_witness :
    (kmeans_fit kf0 [⟨7, some 9, some 100⟩]).labels.length = 1 ∧
    (∀ l ∈ (kmeans_fit kf0 [⟨7, some 9, some 100⟩]).labels,
      l < n_clusters [(⟨7, some 9, some 100⟩ : CustomerRecord)]) ∧
    (kmeans_fit kf0 [⟨7, some 9, some 100⟩]).centers
        = [meanPoint (clusterPoints (scaled_features [⟨7, some 9, some 100⟩])
            (kmeans_fit kf0 [⟨7, some 9, some 100⟩]).labels 0)] ∧
    (n_clusters [(⟨7, some 9, some 100⟩ : CustomerRecord)] = 1 ∧
     model kf0 [⟨7, some 9, some 100⟩]
        = ⟨["customer_id", "segment", "segment_score", "cluster_id"],
           [⟨7, "Low Value", 1, 0⟩]⟩) := by
  have h1 : (kmeans_fit kf0 [(⟨7, some 9, some 100⟩ : CustomerRecord)]).labels.length = 1 := rfl
  have h2 : ∀ l ∈ (kmeans_fit kf0 [(⟨7, some 9, some 100⟩ : CustomerRecord)]).labels,
      l < n_clusters [(⟨7, some 9, some 100⟩ : CustomerRecord)] := by
    intro l hl
    simp [kmeans_fit, kf0, scaled_features_single, n_clusters] at hl ⊢
    omega
  have h3 : (kmeans_fit kf0 [(⟨7, some 9, some 100⟩ : CustomerRecord)]).centers
      = [meanPoint (clusterPoints (scaled_features [⟨7, some 9, some 100⟩])
          (kmeans_fit kf0 [⟨7, some 9, some 100⟩]).labels 0)] := by
    rw [scaled_features_single]
    simp [kmeans_fit, kf0, scaled_features_single, n_clusters, clusterPoints,
      meanPoint, mean, origin]
  exact ⟨h1, h2, h3, single_customer kf0 _ h1 h2 h3⟩

/-- C1, failing-input exhibit: the source maps cluster indices to labels
through the fixed dictionary keyed by the RAW index (`segment_map`), with no
ordering of clusters by centroid value.  On the input `cs2` with the
clustering result `labels = [1, 0]`, `centers = [(1,1), (-1,-1)]` — a valid
KMeans outcome for `k = 2`: the standardized points are exactly the two
centers, each point is assigned to its nearest center, and each center is
the mean of its assigned points — the cluster whose centroid is strictly
larger in BOTH standardized coordinates (raw index 0) receives `Low Value`
while the strictly smaller-centroid cluster (raw index 1) receives
`Medium Value`: the opposite of rank-based ascending labelling. -/
theorem index_keyed_labels :
    (model kfBad cs2).rows.map SegmentRow.segment = ["Medium Value", "Low Value"] ∧
    (model kfBad cs2).rows.map SegmentRow.cluster_id = [1, 0] ∧
    (((kmeans_fit kfBad cs2).centers.getD 1 origin).1
        < ((kmeans_fit kfBad cs2).centers.getD 0 origin).1 ∧
     ((kmeans_fit kfBad cs2).centers.getD 1 origin).2
        < ((kmeans_fit kfBad cs2).centers.getD 0 origin).2) ∧
    scaled_features cs2 = [((-1 : ℝ), (-1 : ℝ)), (1, 1)] ∧
    (∀ x ∈ (scaled_features cs2).zip (kmeans_fit kfBad cs2).labels,
      euclid x.1 ((kmeans_fit kfBad cs2).centers.getD x.2 origin)
          = minDist (kmeans_fit kfBad cs2).centers x.1) ∧
    (kmeans_fit kfBad cs2).centers
        = [meanPoint (clusterPoints (scaled_features cs2) (kmeans_fit kfBad cs2).labels 0),
           meanPoint (clusterPoints (scaled_features cs2) (kmeans_fit kfBad cs2).labels 1)] := by
  have hK : kmeans_fit kfBad cs2
      = ⟨[1, 0], [((1 : ℝ), (1 : ℝ)), ((-1 : ℝ), (-1 : ℝ))]⟩ := rfl
  have hne2 : cs2 ≠ [] := by simp [cs2]
  have e00 : euclid ((-1 : ℝ), (-1 : ℝ)) ((-1 : ℝ), (-1 : ℝ)) = 0 := by
    simp [euclid]
  have e11 : euclid ((1 : ℝ), (1 : ℝ)) ((1 : ℝ), (1 : ℝ)) = 0 := by
    simp [euclid]
  have hmin0 : minDist [((1 : ℝ), (1 : ℝ)), ((-1 : ℝ), (-1 : ℝ))] ((-1 : ℝ), (-1 : ℝ)) = 0 := by
    simp only [minDist, List.map_cons, List.map_nil, listMin, List.foldl_cons, List.foldl_nil]
    rw [e00]
    exact min_eq_right (euclid_nonneg _ _)
  have hmin1 : minDist [((1 : ℝ), (1 : ℝ)), ((-1 : ℝ), (-1 : ℝ))] ((1 : ℝ), (1 : ℝ)) = 0 := by
    simp only [minDist, List.map_cons, List.map_nil, listMin, List.foldl_cons, List.foldl_nil]
    rw [e11]
    exact min_eq_left (euclid_nonneg _ _)
  refine ⟨?_, ?_, ?_, scaled_cs2, ?_, ?_⟩
  · rw [model_ne kfBad cs2 hne2]
    simp only [modelRows]
    rw [scaled_cs2, hK]
    simp [cs2, rowOf, segment_map]
  · rw [model_ne kfBad cs2 hne2]
    simp only [modelRows]
    rw [scaled_cs2, hK]
    simp [cs2, rowOf]
  · rw [hK]
    norm_num
  · intro x hx
    rw [scaled_cs2, hK] at hx
    rw [hK]
    simp only [List.zip_cons_cons, List.zip_nil_right, List.mem_cons, List.not_mem_nil,
      or_false] at hx
    rcases hx with rfl | rfl
    · simpa using Eq.trans e00 hmin0.symm
    · simpa using Eq.trans e11 hmin1.symm
  · rw [hK, scaled_cs2]
    simp [clusterPoints, meanPoint, mean]

end

end CustomerSegments
